import Mathlib

/-!
# format-go-imports: the orchestration core of `exec.go`

A shallow embedding of `executionContext` and its four methods
(`processDir`, `processFile`, `processStdin`, `shouldProcessFileOrDir`),
together with the pieces of the Go standard library they are written against
(`strings.HasPrefix`, `filepath.Ext`, `filepath.Clean`, `filepath.Join`,
`filepath.Walk`, `errors.Wrap`).

Conventions.
* Go strings are byte strings.  Names and paths are modelled by `String`; every
  byte the code inspects (`.`, `_`, `/`) is ASCII, and an ASCII byte never occurs
  inside a multi-byte UTF-8 sequence, so looking at characters and looking at
  bytes agree.
* File contents are `List UInt8`.
* Code that touches the outside world is a function `World → Res α`: the value it
  returns, the world it leaves behind, and the externally visible actions it
  performed, in order.
-/

namespace FormatGoImports

/-! ## Errors -/

/-- Go `error` values that occur in `exec.go`. -/
inductive Err where
  /-- An error produced by the operating system or by the engine. -/
  | msg (text : String)
  /-- The sentinel `filepath.SkipDir`. -/
  | skipDir
  /-- The value of `errors.Wrap(cause, text)` from `github.com/pkg/errors`. -/
  | wrap (cause : Err) (text : String)
  deriving DecidableEq, Repr

/-- The method `Error()`: a wrapped error prints as `text: cause`. -/
def Err.Error : Err → String
  | .msg text => text
  | .skipDir => "skip this directory"
  | .wrap cause text => text ++ ": " ++ cause.Error

/-! ## Strings and paths (Go standard library) -/

/-- `strings.HasPrefix(s, prefix)`. -/
def HasPrefix (s pre : String) : Bool :=
  pre.data.isPrefixOf s.data

/-- The loop of `filepath.Ext`, scanning from the last character towards the
first: `rev` is what is still to be scanned (reversed), `acc` is the part of the
path after it. -/
def extLoop : List Char → List Char → List Char
  | [], _ => []
  | c :: rev, acc =>
    if c = '/' then []
    else if c = '.' then c :: acc
    else extLoop rev (c :: acc)

/-- `filepath.Ext(path)` (Unix path separator):
`for i := len(path) - 1; i >= 0 && !os.IsPathSeparator(path[i]); i--`
returning `path[i:]` at the first `.` met, and `""` otherwise. -/
def Ext (path : String) : String :=
  ⟨extLoop path.data.reverse []⟩

/-- The elements of a path, split at every `/`; `cur` is the element being read,
reversed. -/
def splitElems : List Char → List Char → List (List Char)
  | [], cur => [cur.reverse]
  | c :: rest, cur =>
    if c = '/' then cur.reverse :: splitElems rest [] else splitElems rest (c :: cur)

/-- The elements `filepath.Clean` keeps, `kept` being those kept so far, last one
first: empty elements and `.` are dropped, `..` removes the element before it,
is dropped at the top of a rooted path, and is kept at the top of any other. -/
def cleanElems (rooted : Bool) : List (List Char) → List (List Char) → List (List Char)
  | [], kept => kept.reverse
  | e :: rest, kept =>
    if e = [] ∨ e = ['.'] then cleanElems rooted rest kept
    else if e = ['.', '.'] then
      match kept with
      | [] => if rooted then cleanElems rooted rest [] else cleanElems rooted rest [e]
      | k :: ks =>
        if k = ['.', '.'] then cleanElems rooted rest (e :: kept)
        else cleanElems rooted rest ks
    else cleanElems rooted rest (e :: kept)

/-- Write the elements with a `/` between them. -/
def joinElems : List (List Char) → List Char
  | [] => []
  | [e] => e
  | e :: f :: rest => e ++ '/' :: joinElems (f :: rest)

/-- `filepath.Clean(path)` (Unix): the shortest path naming the same place by
lexical processing; `.` for the empty result. -/
def Clean (path : String) : String :=
  if path = "" then "."
  else
    let rooted := HasPrefix path "/"
    let body := joinElems (cleanElems rooted (splitElems path.data []) [])
    if rooted then ⟨'/' :: body⟩
    else if body = [] then "."
    else ⟨body⟩

/-- `filepath.Join(dir, name)` (Unix): empty elements are ignored and the result
is cleaned. -/
def Join (dir name : String) : String :=
  if dir = "" then (if name = "" then "" else Clean name)
  else Clean (dir ++ "/" ++ name)

/-! ## The execution context -/

/-- What `os.FileInfo` offers to `exec.go`: `Name()` and `IsDir()`. -/
structure FileInfo where
  name : String
  isDir : Bool
  deriving DecidableEq, Repr

/-- The configuration fields of `executionContext`.  `shouldIgnoreFile` is a nilable
function value; the `errorPresenter` field is represented by the recorded
actions below. -/
structure executionContext where
  writeBack : Bool
  listFilesDiffer : Bool
  shouldIgnoreFile : Option (String → Bool)

/-- `executionContext.shouldProcessFileOrDir` for a non-nil `info`. -/
def shouldProcessFileOrDir (ec : executionContext) (info : FileInfo) : Bool :=
  let filename := info.name
  -- Visit the current directory
  if filename = "." && info.isDir then true
  -- Skip files or directories starting with '.' or '_'
  else if HasPrefix filename "." || HasPrefix filename "_" then false
  -- Skip vendor directories
  else if info.isDir && filename = "vendor" then false
  -- Skip regular files that do not end in '.go'
  else if !info.isDir && Ext filename != ".go" then false
  -- Additional filter
  else match ec.shouldIgnoreFile with
    | some ignore => if ignore filename then false else true
    | none => true

/-! ## The outside world -/

/-- File contents. -/
abbrev Bytes := List UInt8

/-- A call the program makes that is visible from outside: the three channels of
the presenter, and the two file-system calls of the per-file pipeline. -/
inductive Action where
  /-- A call `errorPresenter.Verbosef(format, arg)`. -/
  | verbosef (format : String) (arg : String)
  /-- A call `errorPresenter.Errorf(format, path, err)`. -/
  | errorf (format : String) (path : String) (err : Err)
  /-- A call `errorPresenter.Printf(format, arg)`. -/
  | printf (format : String) (arg : String)
  /-- A call `ioutil.ReadFile(path)`. -/
  | readFile (path : String)
  /-- A call `os.Create(path)`. -/
  | create (path : String)
  deriving DecidableEq, Repr

/-- Formatting with the verb `%v` only, which prints a string as it is and an
error by its `Error()` text. -/
def sprintf : List Char → List String → List Char
  | [], _ => []
  | [c], _ => [c]
  | c :: d :: rest, args =>
    if c = '%' ∧ d = 'v' then
      match args with
      | [] => c :: d :: sprintf rest []
      | a :: more => a.data ++ sprintf rest more
    else c :: sprintf (d :: rest) args

/-- Modelled from the spec: the presenter (`errorPresenter`, declared outside
`exec.go`) has three independent channels, verbose trace, error and plain result
output; this is the text it is handed on whichever channel the call names. -/
def Action.message : Action → Option String
  | .verbosef format arg => some ⟨sprintf format.data [arg]⟩
  | .errorf format path err => some ⟨sprintf format.data [path, err.Error]⟩
  | .printf format arg => some ⟨sprintf format.data [arg]⟩
  | .readFile _ => none
  | .create _ => none

/-- The mutable part of the world: the content of every readable file, by path,
and the bytes written to standard output so far. -/
structure World where
  files : List (String × Bytes)
  stdout : Bytes
  deriving DecidableEq, Repr

/-- The content stored under `path`, if any. -/
def lookupFile (path : String) : List (String × Bytes) → Option Bytes
  | [] => none
  | (p, b) :: rest => if p = path then some b else lookupFile path rest

/-- Replace the content stored under `path`, adding the file when it is new. -/
def storeFile (path : String) (content : Bytes) : List (String × Bytes) → List (String × Bytes)
  | [] => [(path, content)]
  | (p, b) :: rest =>
    if p = path then (p, content) :: rest else (p, b) :: storeFile path content rest

/-- How the file system misbehaves, and how it joins paths.  These do not change
while the program runs. -/
structure Env where
  /-- `ioutil.ReadFile` fails with this error although the file may exist. -/
  readErr : String → Option Err
  /-- `os.Create` fails with this error. -/
  createErr : String → Option Err
  /-- `io.Copy` into the created file stops after `n` bytes with this error. -/
  copyErr : String → Option (Nat × Err)
  /-- `io.Copy` to standard output, which has received `sofar`, stops after `n` of
  the bytes `data` with this error: `stdoutErr sofar data = some (n, err)`. -/
  stdoutErr : Bytes → Bytes → Option (Nat × Err)
  /-- `filepath.Join(dir, name)`. -/
  join : String → String → String

/-- The result of running a piece of the program. -/
structure Res (α : Type) where
  ret : α
  world : World
  actions : List Action
  deriving DecidableEq, Repr

/-- `ioutil.ReadFile(path)`. -/
def readFile (env : Env) (w : World) (path : String) : Except Err Bytes :=
  match env.readErr path with
  | some e => .error e
  | none =>
    match lookupFile path w.files with
    | some b => .ok b
    | none => .error (.msg ("open " ++ path ++ ": no such file or directory"))

/-- The transformation engine (`NewGoFile`, `SortImportsInPlace`, `Format`,
declared outside `exec.go`), taken as a parameter.  `format` returns the bytes
it wrote into its sink and the error it returned, if any. -/
structure Engine where
  GoFile : Type
  newGoFile : Bytes → Except Err GoFile
  sortImportsInPlace : GoFile → GoFile
  format : GoFile → Bytes × Option Err

/-! ## The per-file pipeline -/

/-- `executionContext.processFile`. -/
def processFile (ec : executionContext) (env : Env) (eng : Engine)
    (filename : String) (w : World) : Res (Option Err) :=
  let a0 := [Action.verbosef "processing file %v" filename, Action.readFile filename]
  match readFile env w filename with
  | .error err => ⟨some (.wrap err "cannot read file"), w, a0⟩
  | .ok fileBytes =>
    match eng.newGoFile fileBytes with
    | .error err => ⟨some (.wrap err "cannot read file"), w, a0⟩
    | .ok gf =>
      let gf := eng.sortImportsInPlace gf
      match eng.format gf with
      | (_, some err) => ⟨some (.wrap err "cannot format file"), w, a0⟩
      | (formattedFile, none) =>
        let a1 :=
          if ec.listFilesDiffer then
            let areEqual := decide (fileBytes = formattedFile)
            if !areEqual then a0 ++ [Action.printf "%v" filename] else a0
          else a0
        if ec.writeBack then
          let a2 := a1 ++ [Action.create filename]
          match env.createErr filename with
          | some err => ⟨some (.wrap err "cannot open file for writing"), w, a2⟩
          | none =>
            match env.copyErr filename with
            | some (n, err) =>
              ⟨some (.wrap err "cannot write file"),
                { w with files := storeFile filename (formattedFile.take n) w.files }, a2⟩
            | none =>
              ⟨none, { w with files := storeFile filename formattedFile w.files }, a2⟩
        else
          -- io.Copy(os.Stdout, formattedFile): what it returns is dropped
          match env.stdoutErr w.stdout formattedFile with
          | some (n, _) => ⟨none, { w with stdout := w.stdout ++ formattedFile.take n }, a1⟩
          | none => ⟨none, { w with stdout := w.stdout ++ formattedFile }, a1⟩

/-- `executionContext.processStdin`: `stdin` is what standard input holds. -/
def processStdin (eng : Engine) (stdin : Bytes) (w : World) : Res (Option Err) :=
  match eng.newGoFile stdin with
  | .error err => ⟨some (.wrap err "cannot read file"), w, []⟩
  | .ok gf =>
    match eng.format gf with
    | (written, some err) =>
      ⟨some (.wrap err "cannot format file"), { w with stdout := w.stdout ++ written }, []⟩
    | (written, none) => ⟨none, { w with stdout := w.stdout ++ written }, []⟩

/-! ## The directory walk -/

/-- What `filepath.Walk` finds at a path. -/
inductive Node where
  /-- `Lstat` succeeds and the entry is not a directory. -/
  | file (name : String)
  /-- `Lstat` succeeds and the entry is a directory; `readErr` is the error of
  reading its names, if that fails, and `children` are its entries in the order
  `readDirNames` yields them. -/
  | dir (name : String) (readErr : Option Err) (children : List Node)
  /-- `Lstat` fails. -/
  | noinfo (name : String) (err : Err)
  deriving Repr

/-- The name of the entry inside its directory. -/
def Node.name : Node → String
  | .file name => name
  | .dir name _ _ => name
  | .noinfo name _ => name

/-- How a call ends: it returns an `error` value (`none` is `nil`), or panics. -/
inductive Outcome where
  | returned (err : Option Err)
  | panicked
  deriving DecidableEq, Repr

/-- The type `filepath.WalkFunc`; a nil `info` is `none`. -/
abbrev WalkFunc := String → Option FileInfo → Option Err → World → Res Outcome

/-- Put the actions `pre`, performed earlier, in front of those of `r`. -/
def Res.after {α : Type} (pre : List Action) (r : Res α) : Res α :=
  { r with actions := pre ++ r.actions }

mutual
/-- The function `walk` of `path/filepath`, in the form that reads the names of a
directory before it calls `walkFn` on the directory and hands it the error of
that read.  On an entry without file info it is the call `walkFn(path, nil, err)`
that `Walk` and the loop of `walk` make when `Lstat` fails. -/
def walk (walkFn : WalkFunc) (join : String → String → String) (path : String) :
    Node → World → Res Outcome
  | .file name, w => walkFn path (some ⟨name, false⟩) none w
  | .noinfo _ err, w => walkFn path none (some err) w
  | .dir name readErr children, w =>
    -- names, err := readDirNames(path); err1 := walkFn(path, info, err)
    let r1 := walkFn path (some ⟨name, true⟩) readErr w
    match r1.ret with
    | .panicked => r1
    | .returned (some _) => r1
    | .returned none =>
      match readErr with
      | some _ => r1
      | none => (walkChildren walkFn join path children r1.world).after r1.actions
/-- The loop `for _, name := range names` of `walk`. -/
def walkChildren (walkFn : WalkFunc) (join : String → String → String) (path : String) :
    List Node → World → Res Outcome
  | [], w => ⟨.returned none, w, []⟩
  | child :: rest, w =>
    let filename := join path child.name
    let r := walk walkFn join filename child w
    match r.ret with
    | .panicked => r
    | .returned none => (walkChildren walkFn join path rest r.world).after r.actions
    | .returned (some err) =>
      let stop :=
        match child with
        | .noinfo _ _ => decide (err ≠ Err.skipDir)
        | .file _ => true
        | .dir _ _ _ => decide (err ≠ Err.skipDir)
      if stop then r
      else (walkChildren walkFn join path rest r.world).after r.actions
end

/-- `filepath.Walk(root, fn)`; `tree` is what the file system holds at `root`. -/
def Walk (join : String → String → String) (root : String) (tree : Node) (fn : WalkFunc)
    (w : World) : Res Outcome :=
  let r := walk fn join root tree w
  match r.ret with
  | .returned (some .skipDir) => { r with ret := .returned none }
  | _ => r

/-- The function literal passed to `filepath.Walk` in `processDir`. -/
def processDirFunc (ec : executionContext) (env : Env) (eng : Engine) : WalkFunc :=
  fun path info _err w =>
    match info with
    | none =>
      -- `info.Name()` on a nil `os.FileInfo`: nil pointer dereference
      ⟨.panicked, w, []⟩
    | some info =>
      let shouldProcess := shouldProcessFileOrDir ec info
      if !shouldProcess then
        let a := [Action.verbosef "ignoring file %v" path]
        if info.isDir then ⟨.returned (some .skipDir), w, a⟩
        else ⟨.returned none, w, a⟩
      else if !info.isDir then
        let r := processFile ec env eng path w
        match r.ret with
        | some err => ⟨.returned none, r.world, r.actions ++ [Action.errorf "%v: %v" path err]⟩
        | none => ⟨.returned none, r.world, r.actions⟩
      else ⟨.returned none, w, []⟩

/-- `executionContext.processDir`; `tree` is what the file system holds at
`dirName`. -/
def processDir (ec : executionContext) (env : Env) (eng : Engine)
    (dirName : String) (tree : Node) (w : World) : Res Outcome :=
  Walk env.join dirName tree (processDirFunc ec env eng) w

/-! ## Definitions that follow the specification's words -/

/-- The suffix of `name` that starts at its last `.`, empty when `name` has no
`.`: the extension in the words of the specification. -/
def suffixFromLastDot (name : String) : String :=
  if '.' ∈ name.data then ⟨'.' :: (name.data.reverse.takeWhile (fun c => c != '.')).reverse⟩
  else ""

/-- The exclusion predicate is absent, or it returns false on `name`. -/
def notExcluded (ec : executionContext) (name : String) : Prop :=
  ec.shouldIgnoreFile = none ∨ ∃ ignore, ec.shouldIgnoreFile = some ignore ∧ ignore name = false

/-- What the presenter shows on its error channel, in order. -/
def errorOutput (actions : List Action) : List String :=
  actions.filterMap fun a =>
    match a with
    | .errorf _ _ _ => a.message
    | _ => none

/-- What the presenter shows on its result-output channel, in order. -/
def resultOutput (actions : List Action) : List String :=
  actions.filterMap fun a =>
    match a with
    | .printf _ _ => a.message
    | _ => none

/-- The paths on which the per-file pipeline was started, in order: `processFile`
opens with the trace `processing file <path>`. -/
def processedPaths (actions : List Action) : List String :=
  actions.filterMap fun a =>
    match a with
    | .verbosef format arg => if format = "processing file %v" then some arg else none
    | _ => none

/-- The run `r` of `processFile` on `filename` from the world `w` failed with
`cause` wrapped in `text`, never called `os.Create`, and left every file and
standard output as they were. -/
def FailedUntouched (r : Res (Option Err)) (filename : String) (w : World)
    (cause : Err) (text : String) : Prop :=
  r.ret = some (.wrap cause text) ∧
  (Err.wrap cause text).Error = text ++ ": " ++ cause.Error ∧
  Action.create filename ∉ r.actions ∧
  r.world.files = w.files ∧
  r.world.stdout = w.stdout

mutual
/-- The traversal mechanism succeeds everywhere in the tree: every `Lstat` and
every directory read does. -/
def Node.healthy : Node → Bool
  | .file _ => true
  | .dir _ readErr children => readErr.isNone && healthyAll children
  | .noinfo _ _ => false
/-- Every entry of the list is healthy. -/
def healthyAll : List Node → Bool
  | [] => true
  | child :: rest => child.healthy && healthyAll rest
end

mutual
/-- The paths of the filter-passing non-directory entries that the walk reaches,
in walk order: an entry is reached when every directory above it passes the
filter. -/
def eligible (ec : executionContext) (join : String → String → String) (path : String) :
    Node → List String
  | .file name => if shouldProcessFileOrDir ec ⟨name, false⟩ then [path] else []
  | .dir name _ children =>
    if shouldProcessFileOrDir ec ⟨name, true⟩ then eligibleChildren ec join path children
    else []
  | .noinfo _ _ => []
/-- The eligible files beneath the entries of a directory at `path`. -/
def eligibleChildren (ec : executionContext) (join : String → String → String)
    (path : String) : List Node → List String
  | [] => []
  | child :: rest =>
    eligible ec join (join path child.name) child ++ eligibleChildren ec join path rest
end

/-- Run `processFile` on each path in turn, whatever the earlier runs returned;
the result pairs each path with what its run returned. -/
def outcomes (ec : executionContext) (env : Env) (eng : Engine) :
    List String → World → List (String × Option Err)
  | [], _ => []
  | p :: ps, w =>
    (p, (processFile ec env eng p w).ret) ::
      outcomes ec env eng ps (processFile ec env eng p w).world

/-- The world after running `processFile` on each path in turn. -/
def worldAfter (ec : executionContext) (env : Env) (eng : Engine) :
    List String → World → World
  | [], w => w
  | p :: ps, w => worldAfter ec env eng ps (processFile ec env eng p w).world

/-- One message `<path>: <cause>` for each run that failed, in order. -/
def reports (runs : List (String × Option Err)) : List String :=
  runs.filterMap fun run => run.2.map fun err => run.1 ++ ": " ++ err.Error

/-- A run did what running `processFile` on `files` in turn, with one report per
failure, does. -/
def Res.Matches (ec : executionContext) (env : Env) (eng : Engine)
    (r : Res Outcome) (files : List String) (w : World) : Prop :=
  processedPaths r.actions = files ∧
  errorOutput r.actions = reports (outcomes ec env eng files w) ∧
  r.world = worldAfter ec env eng files w

/-! ## Concrete instances, for evaluating the definitions -/

/-- A file system and a standard output on which no call fails. -/
def reliableEnv : Env where
  readErr := fun _ => none
  createErr := fun _ => none
  copyErr := fun _ => none
  stdoutErr := fun _ _ => none
  join := Join

/-- As `reliableEnv`, with a standard output that accepts no byte. -/
def brokenStdoutEnv : Env where
  readErr := fun _ => none
  createErr := fun _ => none
  copyErr := fun _ => none
  stdoutErr := fun _ _ => some (0, .msg "write /dev/stdout: broken pipe")
  join := Join

/-- An engine whose files are their bytes: parsing rejects the empty input,
normalising sorts the bytes, rendering writes them out. -/
def sortingEngine : Engine where
  GoFile := Bytes
  newGoFile := fun b => if b = [] then .error (.msg "expected 'package'") else .ok b
  sortImportsInPlace := fun gf => gf.insertionSort (fun a b => a ≤ b)
  format := fun gf => (gf, none)

/-- An engine that parses everything and cannot render. -/
def failingEngine : Engine where
  GoFile := Bytes
  newGoFile := fun b => .ok b
  sortImportsInPlace := fun gf => gf
  format := fun gf => (gf.take 1, some (.msg "render failed"))

/-- A tree with a hidden file, a `vendor` directory, a file the engine rejects
(`bad.go` is empty) and a file that cannot be read (`sub/e.go` has no content). -/
def sampleTree : Node :=
  .dir "." none
    [.file "a.go", .file ".b.go", .file "bad.go",
      .dir "sub" none [.file "d.go", .file "e.go"],
      .dir "vendor" none [.file "c.go"]]

/-- The file contents that go with `sampleTree`. -/
def sampleWorld : World :=
  ⟨[("a.go", [2, 1]), ("bad.go", []), ("sub/d.go", [3, 4]), ("vendor/c.go", [6, 5])], []⟩

/-! # Properties -/

/-! ## `filepath.Ext` -/

theorem extLoop_length (rev acc : List Char) :
    extLoop rev acc = [] ∨ acc.length + 1 ≤ (extLoop rev acc).length := by
  induction rev generalizing acc with
  | nil => simp [extLoop]
  | cons c rev ih =>
    unfold extLoop
    split
    · simp
    · split
      · simp
      · rcases ih (c :: acc) with h | h
        · exact Or.inl h
        · right
          simp only [List.length_cons] at h
          omega

theorem extLoop_eq_go (rev : List Char) :
    extLoop rev [] = ['.', 'g', 'o'] ↔ ∃ rest, rev = 'o' :: 'g' :: '.' :: rest := by
  constructor
  · intro h
    match rev, h with
    | [], h => simp [extLoop] at h
    | [c], h =>
      simp only [extLoop] at h
      split at h <;> [simp at h; (split at h <;> simp at h)]
    | [c, d], h =>
      simp only [extLoop] at h
      split at h <;> [simp at h; (split at h <;> [simp at h; skip])]
      split at h <;> [simp at h; (split at h <;> simp at h)]
    | c :: d :: e :: rest, h =>
      simp only [extLoop] at h
      split at h <;> [simp at h; (split at h <;> [simp at h; skip])]
      split at h <;> [simp at h; (split at h <;> [simp at h; skip])]
      split at h <;> [simp at h; skip]
      split at h
      · rename_i he
        simp at h
        subst he
        obtain ⟨_, hd, hc⟩ := h
        subst hd hc
        exact ⟨rest, rfl⟩
      · rcases extLoop_length rest [e, d, c] with h0 | h0
        · rw [h0] at h; simp at h
        · rw [h] at h0; simp at h0
  · rintro ⟨rest, rfl⟩
    simp [extLoop]

theorem Ext_eq_go (name : String) :
    Ext name = ".go" ↔ ∃ rest, name.data.reverse = 'o' :: 'g' :: '.' :: rest := by
  rw [← extLoop_eq_go]
  unfold Ext
  constructor
  · intro h
    have := congrArg String.data h
    simpa using this
  · intro h
    rw [h]

theorem takeWhile_notDot_eq_og (rev : List Char) (hdot : '.' ∈ rev) :
    rev.takeWhile (fun c => c != '.') = ['o', 'g'] ↔ ∃ rest, rev = 'o' :: 'g' :: '.' :: rest := by
  constructor
  · intro h2
    match rev, hdot, h2 with
    | [], hdot, _ => simp at hdot
    | [c], hdot, h2 =>
      simp only [List.takeWhile] at h2
      split at h2 <;> simp at h2
    | [c, d], hdot, h2 =>
      simp only [List.takeWhile] at h2
      split at h2 <;> [skip; simp at h2]
      split at h2 <;> [skip; simp at h2]
      simp_all
    | c :: d :: e :: rest, hdot, h2 =>
      simp only [List.takeWhile] at h2
      split at h2 <;> [skip; simp at h2]
      split at h2 <;> [skip; simp at h2]
      split at h2
      · simp at h2
      · rename_i he
        simp at he h2
        obtain ⟨rfl, rfl⟩ := h2
        subst he
        exact ⟨rest, rfl⟩
  · rintro ⟨rest, rfl⟩
    simp [List.takeWhile]

theorem suffixFromLastDot_eq_go (name : String) :
    suffixFromLastDot name = ".go" ↔ ∃ rest, name.data.reverse = 'o' :: 'g' :: '.' :: rest := by
  unfold suffixFromLastDot
  by_cases hdot : '.' ∈ name.data
  · have hrev : '.' ∈ name.data.reverse := by simpa using hdot
    rw [if_pos hdot, ← takeWhile_notDot_eq_og _ hrev]
    constructor
    · intro h
      have h1 := congrArg String.data h
      simp only [List.cons.injEq, true_and] at h1
      have := congrArg List.reverse h1
      simpa using this
    · intro h
      rw [h]
      rfl
  · rw [if_neg hdot]
    constructor
    · intro h
      exact absurd h (by decide)
    · rintro ⟨rest, h⟩
      exfalso
      apply hdot
      have : '.' ∈ name.data.reverse := by rw [h]; simp
      simpa using this

theorem Ext_go_iff_suffix (name : String) :
    Ext name = ".go" ↔ suffixFromLastDot name = ".go" := by
  rw [Ext_eq_go, suffixFromLastDot_eq_go]

/-! ## The filter, the pipeline and the callback, case by case -/

theorem shouldProcess_file_iff (ec : executionContext) (name : String) :
    shouldProcessFileOrDir ec ⟨name, false⟩ = true ↔
      (HasPrefix name "." = false ∧ HasPrefix name "_" = false) ∧
      Ext name = ".go" ∧ notExcluded ec name := by
  unfold shouldProcessFileOrDir notExcluded
  cases hig : ec.shouldIgnoreFile with
  | none => simp
  | some ignore =>
    simp

theorem processFile_read_error (ec : executionContext) (env : Env) (eng : Engine)
    (filename : String) (w : World) (e : Err) (h : readFile env w filename = .error e) :
    processFile ec env eng filename w =
      ⟨some (.wrap e "cannot read file"), w,
        [Action.verbosef "processing file %v" filename, Action.readFile filename]⟩ := by
  simp [processFile, h]

theorem processFile_parse_error (ec : executionContext) (env : Env) (eng : Engine)
    (filename : String) (w : World) (fileBytes : Bytes) (e : Err)
    (hr : readFile env w filename = .ok fileBytes) (hp : eng.newGoFile fileBytes = .error e) :
    processFile ec env eng filename w =
      ⟨some (.wrap e "cannot read file"), w,
        [Action.verbosef "processing file %v" filename, Action.readFile filename]⟩ := by
  simp [processFile, hr, hp]

theorem processFile_format_error (ec : executionContext) (env : Env) (eng : Engine)
    (filename : String) (w : World) (fileBytes : Bytes) (gf : eng.GoFile) (written : Bytes)
    (e : Err) (hr : readFile env w filename = .ok fileBytes)
    (hp : eng.newGoFile fileBytes = .ok gf)
    (hf : eng.format (eng.sortImportsInPlace gf) = (written, some e)) :
    processFile ec env eng filename w =
      ⟨some (.wrap e "cannot format file"), w,
        [Action.verbosef "processing file %v" filename, Action.readFile filename]⟩ := by
  simp [processFile, hr, hp, hf]

/-- What `processFile` does from line 63 on, once the engine has produced
`formattedFile` from `fileBytes`. -/
theorem processFile_transformed (ec : executionContext) (env : Env) (eng : Engine)
    (filename : String) (w : World) (fileBytes : Bytes) (gf : eng.GoFile)
    (formattedFile : Bytes) (hr : readFile env w filename = .ok fileBytes)
    (hp : eng.newGoFile fileBytes = .ok gf)
    (hf : eng.format (eng.sortImportsInPlace gf) = (formattedFile, none)) :
    processFile ec env eng filename w =
      (let a1 := [Action.verbosef "processing file %v" filename, Action.readFile filename] ++
          (if ec.listFilesDiffer = true ∧ fileBytes ≠ formattedFile
            then [Action.printf "%v" filename] else [])
       if ec.writeBack = true then
         match env.createErr filename with
         | some err =>
           ⟨some (.wrap err "cannot open file for writing"), w, a1 ++ [Action.create filename]⟩
         | none =>
           match env.copyErr filename with
           | some (n, err) =>
             ⟨some (.wrap err "cannot write file"),
               { w with files := storeFile filename (formattedFile.take n) w.files },
               a1 ++ [Action.create filename]⟩
           | none =>
             ⟨none, { w with files := storeFile filename formattedFile w.files },
               a1 ++ [Action.create filename]⟩
       else
         match env.stdoutErr w.stdout formattedFile with
         | some (n, _) => ⟨none, { w with stdout := w.stdout ++ formattedFile.take n }, a1⟩
         | none => ⟨none, { w with stdout := w.stdout ++ formattedFile }, a1⟩) := by
  simp only [processFile, hr, hp, hf]
  by_cases hl : ec.listFilesDiffer = true <;> by_cases he : fileBytes = formattedFile <;>
    by_cases hw : ec.writeBack = true <;> simp [hl, he, hw]

theorem processFile_actions (ec : executionContext) (env : Env) (eng : Engine)
    (filename : String) (w : World) :
    ∃ tail, (processFile ec env eng filename w).actions =
        Action.verbosef "processing file %v" filename :: Action.readFile filename :: tail ∧
      ∀ a ∈ tail, a = Action.printf "%v" filename ∨ a = Action.create filename := by
  cases hr : readFile env w filename with
  | error e => exact ⟨[], by simp [processFile_read_error ec env eng filename w e hr]⟩
  | ok fileBytes =>
    cases hp : eng.newGoFile fileBytes with
    | error e => exact ⟨[], by simp [processFile_parse_error ec env eng filename w _ e hr hp]⟩
    | ok gf =>
      rcases hf : eng.format (eng.sortImportsInPlace gf) with ⟨out, _ | e⟩
      · rw [processFile_transformed ec env eng filename w _ gf out hr hp hf]
        dsimp only
        split
        · split
          · exact ⟨_, rfl, by intro a ha; simp at ha; tauto⟩
          · split
            · exact ⟨_, rfl, by intro a ha; simp at ha; tauto⟩
            · exact ⟨_, rfl, by intro a ha; simp at ha; tauto⟩
        · split
          · exact ⟨_, rfl, by intro a ha; simp at ha; tauto⟩
          · exact ⟨_, rfl, by intro a ha; simp at ha; tauto⟩
      · exact ⟨[], by simp [processFile_format_error ec env eng filename w _ gf out e hr hp hf]⟩

theorem processDirFunc_ignored (ec : executionContext) (env : Env) (eng : Engine)
    (path : String) (info : FileInfo) (err : Option Err) (w : World)
    (h : shouldProcessFileOrDir ec info = false) :
    processDirFunc ec env eng path (some info) err w =
      ⟨.returned (if info.isDir = true then some .skipDir else none), w,
        [Action.verbosef "ignoring file %v" path]⟩ := by
  unfold processDirFunc
  cases hd : info.isDir <;> simp [h, hd]

theorem processDirFunc_file (ec : executionContext) (env : Env) (eng : Engine)
    (path name : String) (err : Option Err) (w : World)
    (h : shouldProcessFileOrDir ec ⟨name, false⟩ = true) :
    processDirFunc ec env eng path (some ⟨name, false⟩) err w =
      ⟨.returned none, (processFile ec env eng path w).world,
        (processFile ec env eng path w).actions ++
          (match (processFile ec env eng path w).ret with
            | some e => [Action.errorf "%v: %v" path e]
            | none => [])⟩ := by
  unfold processDirFunc
  simp only [h]
  cases (processFile ec env eng path w).ret <;> simp

theorem processDirFunc_dir (ec : executionContext) (env : Env) (eng : Engine)
    (path name : String) (err : Option Err) (w : World)
    (h : shouldProcessFileOrDir ec ⟨name, true⟩ = true) :
    processDirFunc ec env eng path (some ⟨name, true⟩) err w = ⟨.returned none, w, []⟩ := by
  unfold processDirFunc
  simp [h]

/-- C3. A non-directory entry is handed to the per-file pipeline (the callback of
`processDir` reads it) exactly when its name begins with neither `.` nor `_`, the
suffix starting at its last `.` is `.go`, and the exclusion predicate is absent or
returns false on the name; `filepath.Ext` is that suffix test; and an absent
predicate filters, on every entry, like the predicate that never ignores. -/
theorem file_eligibility (ec : executionContext) (env : Env) (eng : Engine)
    (path name : String) (w : World) :
    (shouldProcessFileOrDir ec ⟨name, false⟩ = true ↔
      (HasPrefix name "." = false ∧ HasPrefix name "_" = false) ∧
      suffixFromLastDot name = ".go" ∧ notExcluded ec name) ∧
    (Ext name = ".go" ↔ suffixFromLastDot name = ".go") ∧
    (Action.readFile path ∈
        (processDirFunc ec env eng path (some ⟨name, false⟩) none w).actions ↔
      shouldProcessFileOrDir ec ⟨name, false⟩ = true) ∧
    (Action.verbosef "processing file %v" path ∈
        (processDirFunc ec env eng path (some ⟨name, false⟩) none w).actions ↔
      shouldProcessFileOrDir ec ⟨name, false⟩ = true) ∧
    (∀ info, shouldProcessFileOrDir { ec with shouldIgnoreFile := none } info =
      shouldProcessFileOrDir { ec with shouldIgnoreFile := some (fun _ => false) } info) := by
  refine ⟨?_, Ext_go_iff_suffix name, ?_, ?_, ?_⟩
  · rw [shouldProcess_file_iff, Ext_go_iff_suffix]
  · obtain ⟨tail, htail, -⟩ := processFile_actions ec env eng path w
    cases h : shouldProcessFileOrDir ec ⟨name, false⟩
    · simp [processDirFunc_ignored ec env eng path _ none w h]
    · simp [processDirFunc_file ec env eng path _ none w h, htail]
  · obtain ⟨tail, htail, -⟩ := processFile_actions ec env eng path w
    cases h : shouldProcessFileOrDir ec ⟨name, false⟩
    · simp [processDirFunc_ignored ec env eng path _ none w h]
    · simp [processDirFunc_file ec env eng path _ none w h, htail]
  · intro info
    simp [shouldProcessFileOrDir]

/-! ## The walk, one entry at a time -/

theorem walk_dir_skipped (ec : executionContext) (env : Env) (eng : Engine)
    (path name : String) (readErr : Option Err) (children : List Node) (w : World)
    (h : shouldProcessFileOrDir ec ⟨name, true⟩ = false) :
    walk (processDirFunc ec env eng) env.join path (.dir name readErr children) w =
      ⟨.returned (some .skipDir), w, [Action.verbosef "ignoring file %v" path]⟩ := by
  simp only [walk]
  rw [processDirFunc_ignored ec env eng path _ readErr w h]
  simp

theorem walk_dir_entered (ec : executionContext) (env : Env) (eng : Engine)
    (path name : String) (children : List Node) (w : World)
    (h : shouldProcessFileOrDir ec ⟨name, true⟩ = true) :
    walk (processDirFunc ec env eng) env.join path (.dir name none children) w =
      walkChildren (processDirFunc ec env eng) env.join path children w := by
  simp only [walk]
  rw [processDirFunc_dir ec env eng path _ none w h]
  simp [Res.after]

theorem walkChildren_skipDir (fn : WalkFunc) (join : String → String → String)
    (parent name : String) (readErr : Option Err) (children rest : List Node) (w w1 : World)
    (acts : List Action)
    (h : walk fn join (join parent name) (.dir name readErr children) w =
      ⟨.returned (some .skipDir), w1, acts⟩) :
    walkChildren fn join parent (.dir name readErr children :: rest) w =
      (walkChildren fn join parent rest w1).after acts := by
  rw [walkChildren]
  simp [Node.name, h]

theorem shouldProcess_dotted (ec : executionContext) (info : FileInfo)
    (h : HasPrefix info.name "." = true ∨ HasPrefix info.name "_" = true)
    (hroot : ¬ (info.name = "." ∧ info.isDir = true)) :
    shouldProcessFileOrDir ec info = false := by
  unfold shouldProcessFileOrDir
  simp only [Bool.and_eq_true, decide_eq_true_eq]
  rw [if_neg hroot]
  rcases h with h | h <;> simp [h]

/-- C4. An entry whose name begins with `.` or `_` does not pass the filter. When
it is not a directory the callback only traces `ignoring file <path>` and returns
nil: no read, no engine, the world unchanged. When it is a directory other than
one named exactly `.` (a name only a traversal root can have) the callback
returns `filepath.SkipDir`: whatever lies beneath, the walk of the directory ends
there with that one trace, the walk of its parent goes on with the next entry,
and `processDir` on it as a root returns nil. -/
theorem dot_underscore_skipped (ec : executionContext) (env : Env) (eng : Engine)
    (path name : String) (w : World)
    (h : HasPrefix name "." = true ∨ HasPrefix name "_" = true) :
    (shouldProcessFileOrDir ec ⟨name, false⟩ = false ∧
      walk (processDirFunc ec env eng) env.join path (.file name) w =
        ⟨.returned none, w, [Action.verbosef "ignoring file %v" path]⟩) ∧
    (name ≠ "." → ∀ (readErr : Option Err) (children : List Node),
      shouldProcessFileOrDir ec ⟨name, true⟩ = false ∧
      walk (processDirFunc ec env eng) env.join path (.dir name readErr children) w =
        ⟨.returned (some .skipDir), w, [Action.verbosef "ignoring file %v" path]⟩ ∧
      (∀ (parent : String) (rest : List Node),
        walkChildren (processDirFunc ec env eng) env.join parent
            (.dir name readErr children :: rest) w =
          (walkChildren (processDirFunc ec env eng) env.join parent rest w).after
            [Action.verbosef "ignoring file %v" (env.join parent name)]) ∧
      processDir ec env eng path (.dir name readErr children) w =
        ⟨.returned none, w, [Action.verbosef "ignoring file %v" path]⟩) := by
  have hfile : shouldProcessFileOrDir ec ⟨name, false⟩ = false :=
    shouldProcess_dotted ec ⟨name, false⟩ h (by simp)
  refine ⟨⟨hfile, ?_⟩, ?_⟩
  · simp only [walk]
    rw [processDirFunc_ignored ec env eng path _ none w hfile]
    simp
  · intro hname readErr children
    have hdir : shouldProcessFileOrDir ec ⟨name, true⟩ = false :=
      shouldProcess_dotted ec ⟨name, true⟩ h (by simp [hname])
    refine ⟨hdir, walk_dir_skipped ec env eng path name readErr children w hdir, ?_, ?_⟩
    · intro parent rest
      exact walkChildren_skipDir _ _ parent name readErr children rest w w _
        (walk_dir_skipped ec env eng _ name readErr children w hdir)
    · simp [processDir, Walk, walk_dir_skipped ec env eng path name readErr children w hdir]

/-- C4 at the directory `.git`, which holds a Go file, and at the file `_gen.go`. -/
theorem dot_underscore_skipped_witness :
    HasPrefix ".git" "." = true ∧
    walk (processDirFunc ⟨true, true, none⟩ reliableEnv sortingEngine) reliableEnv.join
        ".git" (.dir ".git" none [.file "hook.go"]) ⟨[(".git/hook.go", [2, 1])], []⟩ =
      ⟨.returned (some .skipDir), ⟨[(".git/hook.go", [2, 1])], []⟩,
        [Action.verbosef "ignoring file %v" ".git"]⟩ ∧
    HasPrefix "_gen.go" "_" = true ∧
    walk (processDirFunc ⟨true, true, none⟩ reliableEnv sortingEngine) reliableEnv.join
        "_gen.go" (.file "_gen.go") ⟨[("_gen.go", [2, 1])], []⟩ =
      ⟨.returned none, ⟨[("_gen.go", [2, 1])], []⟩,
        [Action.verbosef "ignoring file %v" "_gen.go"]⟩ :=
  ⟨by decide,
    ((dot_underscore_skipped ⟨true, true, none⟩ reliableEnv sortingEngine ".git" ".git"
      ⟨[(".git/hook.go", [2, 1])], []⟩ (Or.inl (by decide))).2 (by decide) none
      [.file "hook.go"]).2.1,
    by decide,
    (dot_underscore_skipped ⟨true, true, none⟩ reliableEnv sortingEngine "_gen.go" "_gen.go"
      ⟨[("_gen.go", [2, 1])], []⟩ (Or.inr (by decide))).1.2⟩

/-- C5. For a directory named exactly `vendor`, at any path, the callback of
`processDir` returns `filepath.SkipDir`: whatever lies beneath, the walk of the
directory ends there with the world unchanged and the single verbose trace
`ignoring file <path>`, the walk of its parent goes on with the next entry, and
`processDir` on it as the traversal root returns nil with that same single
trace. -/
theorem vendor_pruned (ec : executionContext) (env : Env) (eng : Engine)
    (path : String) (readErr : Option Err) (children : List Node) (w : World) :
    shouldProcessFileOrDir ec ⟨"vendor", true⟩ = false ∧
    processDirFunc ec env eng path (some ⟨"vendor", true⟩) readErr w =
      ⟨.returned (some .skipDir), w, [Action.verbosef "ignoring file %v" path]⟩ ∧
    walk (processDirFunc ec env eng) env.join path (.dir "vendor" readErr children) w =
      ⟨.returned (some .skipDir), w, [Action.verbosef "ignoring file %v" path]⟩ ∧
    (∀ (parent : String) (rest : List Node),
      walkChildren (processDirFunc ec env eng) env.join parent
          (.dir "vendor" readErr children :: rest) w =
        (walkChildren (processDirFunc ec env eng) env.join parent rest w).after
          [Action.verbosef "ignoring file %v" (env.join parent "vendor")]) ∧
    processDir ec env eng path (.dir "vendor" readErr children) w =
      ⟨.returned none, w, [Action.verbosef "ignoring file %v" path]⟩ ∧
    (Action.verbosef "ignoring file %v" path).message = some ("ignoring file " ++ path) := by
  have hdir : shouldProcessFileOrDir ec ⟨"vendor", true⟩ = false := by
    simp [shouldProcessFileOrDir]
  refine ⟨hdir, ?_, walk_dir_skipped ec env eng path _ readErr children w hdir, ?_, ?_, ?_⟩
  · rw [processDirFunc_ignored ec env eng path _ readErr w hdir]
    simp
  · intro parent rest
    exact walkChildren_skipDir _ _ parent _ readErr children rest w w _
      (walk_dir_skipped ec env eng _ _ readErr children w hdir)
  · simp [processDir, Walk, walk_dir_skipped ec env eng path _ readErr children w hdir]
  · simp only [Action.message, sprintf]
    apply congrArg
    apply String.ext
    simp [sprintf]

theorem shouldProcess_dir_iff (ec : executionContext) (name : String)
    (h1 : HasPrefix name "." = false) (h2 : HasPrefix name "_" = false)
    (h3 : name ≠ "vendor") :
    shouldProcessFileOrDir ec ⟨name, true⟩ = true ↔ notExcluded ec name := by
  unfold shouldProcessFileOrDir notExcluded
  cases hig : ec.shouldIgnoreFile with
  | none => simp [h1, h2, h3]
  | some ignore =>
    simp [h1, h2, h3]
    intro hn
    subst hn
    exact absurd h1 (by decide)

/-- C6 as stated fails: the directory `pkg` begins with neither `.` nor `_` and is
not `vendor`, yet with an exclusion predicate that matches its name the filter
returns false and the walk skips the directory with everything beneath it. -/
theorem directory_exclusion_counterexample :
    HasPrefix "pkg" "." = false ∧ HasPrefix "pkg" "_" = false ∧ "pkg" ≠ "vendor" ∧
    shouldProcessFileOrDir ⟨false, false, some (fun _ => true)⟩ ⟨"pkg", true⟩ = false ∧
    walk (processDirFunc ⟨false, false, some (fun _ => true)⟩ reliableEnv sortingEngine)
        reliableEnv.join "pkg" (.dir "pkg" none [.file "a.go"]) ⟨[("pkg/a.go", [2, 1])], []⟩ =
      ⟨.returned (some .skipDir), ⟨[("pkg/a.go", [2, 1])], []⟩,
        [Action.verbosef "ignoring file %v" "pkg"]⟩ := by
  decide

/-- C6, amended. For a directory whose name begins with neither `.` nor `_` and is
not `vendor`, the filter returns process exactly when the exclusion predicate is
absent or returns false on the directory's name; then the directory is descended
into, and otherwise it is skipped with everything beneath it. -/
theorem directory_processed_iff (ec : executionContext) (env : Env) (eng : Engine)
    (path name : String) (w : World)
    (h1 : HasPrefix name "." = false) (h2 : HasPrefix name "_" = false)
    (h3 : name ≠ "vendor") :
    (shouldProcessFileOrDir ec ⟨name, true⟩ = true ↔ notExcluded ec name) ∧
    (notExcluded ec name → ∀ children : List Node,
      walk (processDirFunc ec env eng) env.join path (.dir name none children) w =
        walkChildren (processDirFunc ec env eng) env.join path children w) ∧
    (¬ notExcluded ec name → ∀ (readErr : Option Err) (children : List Node),
      walk (processDirFunc ec env eng) env.join path (.dir name readErr children) w =
        ⟨.returned (some .skipDir), w, [Action.verbosef "ignoring file %v" path]⟩) := by
  have hiff := shouldProcess_dir_iff ec name h1 h2 h3
  refine ⟨hiff, ?_, ?_⟩
  · intro hne children
    exact walk_dir_entered ec env eng path name children w (hiff.mpr hne)
  · intro hex readErr children
    apply walk_dir_skipped
    cases hs : shouldProcessFileOrDir ec ⟨name, true⟩
    · rfl
    · exact absurd (hiff.mp hs) hex

/-- C6, amended, at the directory `pkg`: with a predicate that ignores only `gen`, and with no predicate. -/
theorem directory_processed_iff_witness :
    (HasPrefix "pkg" "." = false ∧ HasPrefix "pkg" "_" = false ∧ "pkg" ≠ "vendor") ∧
    (shouldProcessFileOrDir ⟨false, false, some (fun name => name = "gen")⟩ ⟨"pkg", true⟩ = true ↔
      notExcluded ⟨false, false, some (fun name => name = "gen")⟩ "pkg") ∧
    walk (processDirFunc ⟨false, false, none⟩ reliableEnv sortingEngine) reliableEnv.join
        "pkg" (.dir "pkg" none [.file "a.go"]) ⟨[("pkg/a.go", [2, 1])], []⟩ =
      walkChildren (processDirFunc ⟨false, false, none⟩ reliableEnv sortingEngine)
        reliableEnv.join "pkg" [.file "a.go"] ⟨[("pkg/a.go", [2, 1])], []⟩ :=
  ⟨⟨by decide, by decide, by decide⟩,
    (directory_processed_iff ⟨false, false, some (fun name => name = "gen")⟩ reliableEnv
      sortingEngine "pkg" "pkg" ⟨[], []⟩ (by decide) (by decide) (by decide)).1,
    (directory_processed_iff ⟨false, false, none⟩ reliableEnv sortingEngine "pkg" "pkg"
      ⟨[("pkg/a.go", [2, 1])], []⟩ (by decide) (by decide) (by decide)).2.1 (Or.inl rfl)
      [.file "a.go"]⟩

/-! ## The per-file pipeline -/

theorem lookupFile_storeFile (path : String) (content : Bytes) (files : List (String × Bytes)) :
    lookupFile path (storeFile path content files) = some content := by
  induction files with
  | nil => simp [storeFile, lookupFile]
  | cons head rest ih =>
    obtain ⟨p, b⟩ := head
    by_cases hp : p = path <;> simp [storeFile, lookupFile, hp, ih]

theorem lookupFile_storeFile_other (path other : String) (content : Bytes)
    (files : List (String × Bytes)) (h : other ≠ path) :
    lookupFile other (storeFile path content files) = lookupFile other files := by
  induction files with
  | nil => simp [storeFile, lookupFile, Ne.symm h]
  | cons head rest ih =>
    obtain ⟨p, b⟩ := head
    by_cases hp : p = path
    · subst hp
      simp [storeFile, lookupFile, Ne.symm h]
    · by_cases ho : p = other
      · subst ho
        simp [storeFile, lookupFile, h]
      · simp [storeFile, lookupFile, hp, ho, ih]

/-- C7. Whatever the configuration, write-back included: when reading the file,
parsing it or rendering it fails, `processFile` returns that failure wrapped
(`cannot read file` for reading and parsing, `cannot format file` for
rendering), without calling `os.Create`, with every file and standard output
unchanged. -/
theorem processFile_fails_before_create (ec : executionContext) (env : Env) (eng : Engine)
    (filename : String) (w : World) :
    (∀ e, readFile env w filename = .error e →
      FailedUntouched (processFile ec env eng filename w) filename w e "cannot read file") ∧
    (∀ fileBytes e, readFile env w filename = .ok fileBytes →
      eng.newGoFile fileBytes = .error e →
      FailedUntouched (processFile ec env eng filename w) filename w e "cannot read file") ∧
    (∀ fileBytes gf written e, readFile env w filename = .ok fileBytes →
      eng.newGoFile fileBytes = .ok gf →
      eng.format (eng.sortImportsInPlace gf) = (written, some e) →
      FailedUntouched (processFile ec env eng filename w) filename w e "cannot format file") := by
  refine ⟨?_, ?_, ?_⟩
  · intro e hr
    rw [processFile_read_error ec env eng filename w e hr]
    simp [FailedUntouched, Err.Error]
  · intro fileBytes e hr hp
    rw [processFile_parse_error ec env eng filename w fileBytes e hr hp]
    simp [FailedUntouched, Err.Error]
  · intro fileBytes gf written e hr hp hf
    rw [processFile_format_error ec env eng filename w fileBytes gf written e hr hp hf]
    simp [FailedUntouched, Err.Error]

/-- C7 with write-back enabled: a file that is not there, a file the engine cannot parse, and an engine that cannot render. -/
theorem processFile_fails_before_create_witness :
    FailedUntouched (processFile ⟨true, true, none⟩ reliableEnv sortingEngine "gone.go" ⟨[], []⟩)
      "gone.go" ⟨[], []⟩ (.msg "open gone.go: no such file or directory") "cannot read file" ∧
    FailedUntouched
      (processFile ⟨true, true, none⟩ reliableEnv sortingEngine "a.go" ⟨[("a.go", [])], []⟩)
      "a.go" ⟨[("a.go", [])], []⟩ (.msg "expected 'package'") "cannot read file" ∧
    FailedUntouched
      (processFile ⟨true, true, none⟩ reliableEnv failingEngine "a.go" ⟨[("a.go", [7, 8])], []⟩)
      "a.go" ⟨[("a.go", [7, 8])], []⟩ (.msg "render failed") "cannot format file" :=
  ⟨(processFile_fails_before_create ⟨true, true, none⟩ reliableEnv sortingEngine "gone.go"
      ⟨[], []⟩).1 _ rfl,
    (processFile_fails_before_create ⟨true, true, none⟩ reliableEnv sortingEngine "a.go"
      ⟨[("a.go", [])], []⟩).2.1 [] _ rfl rfl,
    (processFile_fails_before_create ⟨true, true, none⟩ reliableEnv failingEngine "a.go"
      ⟨[("a.go", [7, 8])], []⟩).2.2 [7, 8] [7, 8] [7] _ rfl rfl rfl⟩

theorem resultOutput_append (a b : List Action) :
    resultOutput (a ++ b) = resultOutput a ++ resultOutput b := by
  simp [resultOutput]

theorem errorOutput_append (a b : List Action) :
    errorOutput (a ++ b) = errorOutput a ++ errorOutput b := by
  simp [errorOutput]

theorem processedPaths_append (a b : List Action) :
    processedPaths (a ++ b) = processedPaths a ++ processedPaths b := by
  simp [processedPaths]

theorem printf_message (arg : String) :
    (Action.printf "%v" arg).message = some arg := by
  simp only [Action.message]
  apply congrArg
  apply String.ext
  simp [sprintf]

theorem errorf_message (path : String) (err : Err) :
    (Action.errorf "%v: %v" path err).message = some (path ++ ": " ++ err.Error) := by
  simp only [Action.message]
  apply congrArg
  apply String.ext
  simp [sprintf]

/-- C8. When reading and transforming succeed, whatever `writeBack` is and
whatever the write does, `processFile` prints the path on the result-output
channel exactly once if `listFilesDiffer` is set and the original bytes differ
from the transformed ones, and not at all otherwise (so never when the engine
returns its input); it prints nothing on the error channel. -/
theorem diff_listing_report (ec : executionContext) (env : Env) (eng : Engine)
    (filename : String) (w : World) (fileBytes : Bytes) (gf : eng.GoFile)
    (formattedFile : Bytes) (hr : readFile env w filename = .ok fileBytes)
    (hp : eng.newGoFile fileBytes = .ok gf)
    (hf : eng.format (eng.sortImportsInPlace gf) = (formattedFile, none)) :
    (resultOutput (processFile ec env eng filename w).actions =
      if ec.listFilesDiffer = true ∧ fileBytes ≠ formattedFile then [filename] else []) ∧
    ((processFile ec env eng filename w).actions.count (Action.printf "%v" filename) =
      if ec.listFilesDiffer = true ∧ fileBytes ≠ formattedFile then 1 else 0) ∧
    errorOutput (processFile ec env eng filename w).actions = [] ∧
    (fileBytes = formattedFile → resultOutput (processFile ec env eng filename w).actions = []) := by
  have key : ∃ tail, (processFile ec env eng filename w).actions =
      [Action.verbosef "processing file %v" filename, Action.readFile filename] ++
        (if ec.listFilesDiffer = true ∧ fileBytes ≠ formattedFile
          then [Action.printf "%v" filename] else []) ++ tail ∧
      (tail = [] ∨ tail = [Action.create filename]) := by
    rw [processFile_transformed ec env eng filename w fileBytes gf formattedFile hr hp hf]
    dsimp only
    split
    · split
      · exact ⟨_, rfl, Or.inr rfl⟩
      · split
        · exact ⟨_, rfl, Or.inr rfl⟩
        · exact ⟨_, rfl, Or.inr rfl⟩
    · split
      · exact ⟨[], by simp, Or.inl rfl⟩
      · exact ⟨[], by simp, Or.inl rfl⟩
  obtain ⟨tail, hact, htail⟩ := key
  have hres : resultOutput (processFile ec env eng filename w).actions =
      if ec.listFilesDiffer = true ∧ fileBytes ≠ formattedFile then [filename] else [] := by
    rw [hact, resultOutput_append, resultOutput_append]
    have h1 : resultOutput tail = [] := by
      rcases htail with h | h <;> simp [h, resultOutput]
    rw [h1]
    split
    · simp [resultOutput, printf_message]
    · simp [resultOutput]
  refine ⟨hres, ?_, ?_, ?_⟩
  · rw [hact]
    rcases htail with h | h <;> subst h <;> split <;> simp [List.count_cons]
  · rw [hact, errorOutput_append, errorOutput_append]
    rcases htail with h | h <;> subst h <;> split <;> simp [errorOutput]
  · intro heq
    rw [hres]
    simp [heq]

/-- C8 at a file the engine changes and at one it leaves as it is, with diff-listing on, and at the first again with diff-listing off. -/
theorem diff_listing_report_witness :
    resultOutput (processFile ⟨false, true, none⟩ reliableEnv sortingEngine "a.go"
        ⟨[("a.go", [2, 1]), ("b.go", [1, 2])], []⟩).actions = ["a.go"] ∧
    resultOutput (processFile ⟨false, true, none⟩ reliableEnv sortingEngine "b.go"
        ⟨[("a.go", [2, 1]), ("b.go", [1, 2])], []⟩).actions = [] ∧
    resultOutput (processFile ⟨true, false, none⟩ reliableEnv sortingEngine "a.go"
        ⟨[("a.go", [2, 1]), ("b.go", [1, 2])], []⟩).actions = [] :=
  ⟨(diff_listing_report ⟨false, true, none⟩ reliableEnv sortingEngine "a.go"
      ⟨[("a.go", [2, 1]), ("b.go", [1, 2])], []⟩ [2, 1] [2, 1] [1, 2] rfl rfl
      (by decide)).1.trans (by decide),
    (diff_listing_report ⟨false, true, none⟩ reliableEnv sortingEngine "b.go"
      ⟨[("a.go", [2, 1]), ("b.go", [1, 2])], []⟩ [1, 2] [1, 2] [1, 2] rfl rfl
      (by decide)).2.2.2 rfl,
    (diff_listing_report ⟨true, false, none⟩ reliableEnv sortingEngine "a.go"
      ⟨[("a.go", [2, 1]), ("b.go", [1, 2])], []⟩ [2, 1] [2, 1] [1, 2] rfl rfl
      (by decide)).1.trans (by decide)⟩

/-- C9 as stated fails: with `writeBack` unset, on a standard output that accepts
no byte, `processFile` reads `a.go`, the engine turns `2 1` into `1 2`, the copy
to standard output fails, its error is dropped and `processFile` returns nil:
standard output still holds `5` alone, where on a standard output that works it
holds `5 1 2`. -/
theorem stdout_copy_counterexample :
    processFile ⟨false, false, none⟩ brokenStdoutEnv sortingEngine "a.go"
        ⟨[("a.go", [2, 1])], [5]⟩ =
      ⟨none, ⟨[("a.go", [2, 1])], [5]⟩,
        [Action.verbosef "processing file %v" "a.go", Action.readFile "a.go"]⟩ ∧
    (processFile ⟨false, false, none⟩ brokenStdoutEnv sortingEngine "a.go"
        ⟨[("a.go", [2, 1])], [5]⟩).world.stdout ≠ [5, 1, 2] ∧
    (processFile ⟨false, false, none⟩ reliableEnv sortingEngine "a.go"
        ⟨[("a.go", [2, 1])], [5]⟩).world.stdout = [5, 1, 2] := by
  decide

/-- C9, amended. When reading and transforming succeed, whatever `listFilesDiffer`
is: with `writeBack` set and a write that succeeds, `processFile` returns nil, the
file holds exactly the transformed bytes, no other file changes and standard
output receives nothing; with `writeBack` unset, `processFile` returns nil and no
file is created or changed, and standard output receives the transformed bytes
when the copy to it succeeds (when the copy stops after `n` bytes, those `n`). -/
theorem output_mode_dispatch (ec : executionContext) (env : Env) (eng : Engine)
    (filename : String) (w : World) (fileBytes : Bytes) (gf : eng.GoFile)
    (formattedFile : Bytes) (hr : readFile env w filename = .ok fileBytes)
    (hp : eng.newGoFile fileBytes = .ok gf)
    (hf : eng.format (eng.sortImportsInPlace gf) = (formattedFile, none)) :
    (ec.writeBack = true → env.createErr filename = none → env.copyErr filename = none →
      (processFile ec env eng filename w).ret = none ∧
      lookupFile filename (processFile ec env eng filename w).world.files = some formattedFile ∧
      (∀ other, other ≠ filename →
        lookupFile other (processFile ec env eng filename w).world.files =
          lookupFile other w.files) ∧
      (processFile ec env eng filename w).world.stdout = w.stdout) ∧
    (ec.writeBack = false →
      (processFile ec env eng filename w).ret = none ∧
      (processFile ec env eng filename w).world.files = w.files ∧
      Action.create filename ∉ (processFile ec env eng filename w).actions ∧
      (env.stdoutErr w.stdout formattedFile = none →
        (processFile ec env eng filename w).world.stdout = w.stdout ++ formattedFile) ∧
      (∀ n err, env.stdoutErr w.stdout formattedFile = some (n, err) →
        (processFile ec env eng filename w).world.stdout =
          w.stdout ++ formattedFile.take n)) := by
  rw [processFile_transformed ec env eng filename w fileBytes gf formattedFile hr hp hf]
  constructor
  · intro hw hc hcp
    simp only [hw, hc, hcp, if_true]
    exact ⟨trivial, lookupFile_storeFile _ _ _,
      fun other ho => lookupFile_storeFile_other _ _ _ _ ho, trivial⟩
  · intro hw
    simp only [hw]
    rcases hso : env.stdoutErr w.stdout formattedFile with _ | ⟨n, e⟩
    · simp
    · simp

/-- C9, amended, at the file `a.go` holding `2 1`: with write-back, without it on a
standard output that works, and without it on one that accepts no byte. -/
theorem output_mode_dispatch_witness :
    (lookupFile "a.go" (processFile ⟨true, false, none⟩ reliableEnv sortingEngine "a.go"
        ⟨[("a.go", [2, 1]), ("b.go", [9])], [5]⟩).world.files = some [1, 2] ∧
      (processFile ⟨true, false, none⟩ reliableEnv sortingEngine "a.go"
        ⟨[("a.go", [2, 1]), ("b.go", [9])], [5]⟩).world.stdout = [5]) ∧
    ((processFile ⟨false, false, none⟩ reliableEnv sortingEngine "a.go"
        ⟨[("a.go", [2, 1]), ("b.go", [9])], [5]⟩).world.stdout = [5] ++ [1, 2] ∧
      (processFile ⟨false, false, none⟩ reliableEnv sortingEngine "a.go"
        ⟨[("a.go", [2, 1]), ("b.go", [9])], [5]⟩).world.files =
        [("a.go", [2, 1]), ("b.go", [9])]) ∧
    ((processFile ⟨false, false, none⟩ brokenStdoutEnv sortingEngine "a.go"
        ⟨[("a.go", [2, 1]), ("b.go", [9])], [5]⟩).ret = none ∧
      (processFile ⟨false, false, none⟩ brokenStdoutEnv sortingEngine "a.go"
        ⟨[("a.go", [2, 1]), ("b.go", [9])], [5]⟩).world.stdout =
        [5] ++ ([1, 2] : Bytes).take 0) := by
  have h1 := (output_mode_dispatch ⟨true, false, none⟩ reliableEnv sortingEngine "a.go"
    ⟨[("a.go", [2, 1]), ("b.go", [9])], [5]⟩ [2, 1] [2, 1] [1, 2] rfl rfl (by decide)).1
    rfl rfl rfl
  have h2 := (output_mode_dispatch ⟨false, false, none⟩ reliableEnv sortingEngine "a.go"
    ⟨[("a.go", [2, 1]), ("b.go", [9])], [5]⟩ [2, 1] [2, 1] [1, 2] rfl rfl (by decide)).2 rfl
  have h3 := (output_mode_dispatch ⟨false, false, none⟩ brokenStdoutEnv sortingEngine "a.go"
    ⟨[("a.go", [2, 1]), ("b.go", [9])], [5]⟩ [2, 1] [2, 1] [1, 2] rfl rfl (by decide)).2 rfl
  exact ⟨⟨h1.2.1, h1.2.2.2⟩, ⟨h2.2.2.2.1 rfl, h2.2.1⟩, ⟨h3.1, h3.2.2.2.2 0 _ rfl⟩⟩

/-! ## Error isolation in `processDir` -/

theorem outcomes_append (ec : executionContext) (env : Env) (eng : Engine)
    (a b : List String) (w : World) :
    outcomes ec env eng (a ++ b) w =
      outcomes ec env eng a w ++ outcomes ec env eng b (worldAfter ec env eng a w) := by
  induction a generalizing w with
  | nil => simp [outcomes, worldAfter]
  | cons p ps ih => simp [outcomes, worldAfter, ih]

theorem worldAfter_append (ec : executionContext) (env : Env) (eng : Engine)
    (a b : List String) (w : World) :
    worldAfter ec env eng (a ++ b) w =
      worldAfter ec env eng b (worldAfter ec env eng a w) := by
  induction a generalizing w with
  | nil => simp [worldAfter]
  | cons p ps ih => simp [worldAfter, ih]

theorem reports_append (a b : List (String × Option Err)) :
    reports (a ++ b) = reports a ++ reports b := by
  simp [reports]

theorem processFile_processedPaths (ec : executionContext) (env : Env) (eng : Engine)
    (filename : String) (w : World) :
    processedPaths (processFile ec env eng filename w).actions = [filename] := by
  obtain ⟨tail, h, htail⟩ := processFile_actions ec env eng filename w
  rw [h]
  have : processedPaths tail = [] := by
    unfold processedPaths
    rw [List.filterMap_eq_nil_iff]
    intro a ha
    rcases htail a ha with rfl | rfl <;> rfl
  simp [processedPaths] at this ⊢
  exact this

theorem processFile_errorOutput (ec : executionContext) (env : Env) (eng : Engine)
    (filename : String) (w : World) :
    errorOutput (processFile ec env eng filename w).actions = [] := by
  obtain ⟨tail, h, htail⟩ := processFile_actions ec env eng filename w
  rw [h]
  unfold errorOutput
  rw [List.filterMap_eq_nil_iff]
  intro a ha
  simp at ha
  rcases ha with rfl | rfl | ha
  · rfl
  · rfl
  · rcases htail a ha with rfl | rfl <;> rfl

theorem Matches_after (ec : executionContext) (env : Env) (eng : Engine)
    (r1 r2 : Res Outcome) (f1 f2 : List String) (w : World)
    (h1 : r1.Matches ec env eng f1 w) (h2 : r2.Matches ec env eng f2 r1.world) :
    (r2.after r1.actions).Matches ec env eng (f1 ++ f2) w := by
  obtain ⟨a1, b1, c1⟩ := h1
  obtain ⟨a2, b2, c2⟩ := h2
  refine ⟨?_, ?_, ?_⟩
  · simp [Res.after, processedPaths_append, a1, a2]
  · simp [Res.after, errorOutput_append, b1, b2, outcomes_append, reports_append, c1]
  · simp [Res.after, worldAfter_append, c2, c1]

theorem processDirFunc_file_Matches (ec : executionContext) (env : Env) (eng : Engine)
    (path name : String) (w : World) :
    (processDirFunc ec env eng path (some ⟨name, false⟩) none w).ret = .returned none ∧
    (processDirFunc ec env eng path (some ⟨name, false⟩) none w).Matches ec env eng
      (if shouldProcessFileOrDir ec ⟨name, false⟩ then [path] else []) w := by
  cases h : shouldProcessFileOrDir ec ⟨name, false⟩
  · rw [processDirFunc_ignored ec env eng path _ none w h]
    simp [Res.Matches, processedPaths, errorOutput, reports, outcomes, worldAfter]
  · rw [processDirFunc_file ec env eng path _ none w h]
    refine ⟨rfl, ?_, ?_, ?_⟩
    · simp only [processedPaths_append, processFile_processedPaths, if_true]
      cases (processFile ec env eng path w).ret <;> simp [processedPaths]
    · simp only [errorOutput_append, processFile_errorOutput, if_true, outcomes, reports]
      cases (processFile ec env eng path w).ret <;> simp [errorOutput, errorf_message]
    · simp [worldAfter]

mutual
theorem walk_healthy (ec : executionContext) (env : Env) (eng : Engine) :
    ∀ (node : Node) (path : String) (w : World), node.healthy = true →
      ((walk (processDirFunc ec env eng) env.join path node w).ret = .returned none ∨
        ((walk (processDirFunc ec env eng) env.join path node w).ret =
            .returned (some .skipDir) ∧ ∃ name readErr children, node = .dir name readErr children)) ∧
      (walk (processDirFunc ec env eng) env.join path node w).Matches ec env eng
        (eligible ec env.join path node) w
  | .file name, path, w, _ => by
    simp only [walk, eligible]
    exact ⟨Or.inl (processDirFunc_file_Matches ec env eng path name w).1,
      (processDirFunc_file_Matches ec env eng path name w).2⟩
  | .noinfo name err, path, w, h => by simp [Node.healthy] at h
  | .dir name readErr children, path, w, h => by
    simp only [Node.healthy, Bool.and_eq_true, Option.isNone_iff_eq_none] at h
    obtain ⟨hre, hch⟩ := h
    subst hre
    cases hs : shouldProcessFileOrDir ec ⟨name, true⟩
    · rw [walk_dir_skipped ec env eng path name none children w hs]
      simp [eligible, hs, Res.Matches, processedPaths, errorOutput, reports, outcomes, worldAfter]
    · rw [walk_dir_entered ec env eng path name children w hs]
      simp only [eligible, hs, if_true]
      have := walkChildren_healthy ec env eng children path w hch
      exact ⟨Or.inl this.1, this.2⟩
theorem walkChildren_healthy (ec : executionContext) (env : Env) (eng : Engine) :
    ∀ (nodes : List Node) (path : String) (w : World), healthyAll nodes = true →
      (walkChildren (processDirFunc ec env eng) env.join path nodes w).ret = .returned none ∧
      (walkChildren (processDirFunc ec env eng) env.join path nodes w).Matches ec env eng
        (eligibleChildren ec env.join path nodes) w
  | [], path, w, _ => by
    simp [walkChildren, eligibleChildren, Res.Matches, processedPaths, errorOutput, reports,
      outcomes, worldAfter]
  | child :: rest, path, w, h => by
    simp only [healthyAll, Bool.and_eq_true] at h
    obtain ⟨hc, hr⟩ := h
    obtain ⟨hret, hm⟩ := walk_healthy ec env eng child (env.join path child.name) w hc
    have hrest := walkChildren_healthy ec env eng rest path
      (walk (processDirFunc ec env eng) env.join (env.join path child.name) child w).world hr
    have hcont : walkChildren (processDirFunc ec env eng) env.join path (child :: rest) w =
        (walkChildren (processDirFunc ec env eng) env.join path rest
          (walk (processDirFunc ec env eng) env.join (env.join path child.name) child w).world).after
          (walk (processDirFunc ec env eng) env.join (env.join path child.name) child w).actions := by
      rw [walkChildren]
      rcases hret with h0 | ⟨h0, name, readErr, children, rfl⟩
      · simp only [h0]
      · simp only [h0]
        simp
    rw [hcont]
    refine ⟨?_, ?_⟩
    · simpa [Res.after] using hrest.1
    · simp only [eligibleChildren]
      exact Matches_after ec env eng _ _ _ _ w hm hrest.2
end

/-- C1. On a tree whose traversal succeeds, whichever files make `processFile`
fail, `processDir` returns nil, starts `processFile` on every filter-passing
non-directory entry it reaches, in walk order, shows on the error channel
exactly one message `<path>: <cause>` for each of those runs that failed and
nothing else, and leaves the world as those runs, taken in order, leave it. -/
theorem processDir_isolates_failures (ec : executionContext) (env : Env) (eng : Engine)
    (dirName : String) (tree : Node) (w : World) (h : tree.healthy = true) :
    (processDir ec env eng dirName tree w).ret = .returned none ∧
    processedPaths (processDir ec env eng dirName tree w).actions =
      eligible ec env.join dirName tree ∧
    errorOutput (processDir ec env eng dirName tree w).actions =
      reports (outcomes ec env eng (eligible ec env.join dirName tree) w) ∧
    (processDir ec env eng dirName tree w).world =
      worldAfter ec env eng (eligible ec env.join dirName tree) w := by
  obtain ⟨hret, hm⟩ := walk_healthy ec env eng tree dirName w h
  unfold processDir Walk
  rcases hret with h0 | ⟨h0, -⟩
  · simp only [h0]
    exact ⟨trivial, hm⟩
  · simp only [h0]
    exact ⟨trivial, hm⟩

/-- C1 on `sampleTree`: four files are processed, the two that fail are reported by path, the other two reach standard output. -/
theorem processDir_isolates_failures_witness :
    sampleTree.healthy = true ∧
    eligible ⟨false, false, none⟩ reliableEnv.join "." sampleTree =
      ["a.go", "bad.go", "sub/d.go", "sub/e.go"] ∧
    (processDir ⟨false, false, none⟩ reliableEnv sortingEngine "." sampleTree sampleWorld).ret =
      .returned none ∧
    processedPaths
        (processDir ⟨false, false, none⟩ reliableEnv sortingEngine "." sampleTree
          sampleWorld).actions =
      ["a.go", "bad.go", "sub/d.go", "sub/e.go"] ∧
    errorOutput
        (processDir ⟨false, false, none⟩ reliableEnv sortingEngine "." sampleTree
          sampleWorld).actions =
      ["bad.go: cannot read file: expected 'package'",
        "sub/e.go: cannot read file: open sub/e.go: no such file or directory"] ∧
    (processDir ⟨false, false, none⟩ reliableEnv sortingEngine "." sampleTree
        sampleWorld).world.stdout = [1, 2, 3, 4] := by
  have h := processDir_isolates_failures ⟨false, false, none⟩ reliableEnv sortingEngine "."
    sampleTree sampleWorld (by decide)
  refine ⟨by decide, by decide, h.1, h.2.1.trans (by decide), h.2.2.1.trans (by decide), ?_⟩
  rw [h.2.2.2]
  decide

/-! ## Failures of the traversal mechanism -/

theorem processDirFunc_ret (ec : executionContext) (env : Env) (eng : Engine)
    (path : String) (info : Option FileInfo) (err : Option Err) (w : World) :
    (processDirFunc ec env eng path info err w).ret = .returned none ∨
    (processDirFunc ec env eng path info err w).ret = .panicked ∨
    ((processDirFunc ec env eng path info err w).ret = .returned (some .skipDir) ∧
      ∃ name, info = some ⟨name, true⟩) := by
  cases info with
  | none => simp [processDirFunc]
  | some info =>
    obtain ⟨name, isDir⟩ := info
    cases hs : shouldProcessFileOrDir ec ⟨name, isDir⟩
    · rw [processDirFunc_ignored ec env eng path _ err w hs]
      cases isDir <;> simp
    · cases isDir
      · rw [processDirFunc_file ec env eng path _ err w hs]
        simp
      · rw [processDirFunc_dir ec env eng path _ err w hs]
        simp

mutual
theorem walk_ret (ec : executionContext) (env : Env) (eng : Engine) :
    ∀ (node : Node) (path : String) (w : World),
      (walk (processDirFunc ec env eng) env.join path node w).ret = .returned none ∨
      (walk (processDirFunc ec env eng) env.join path node w).ret = .panicked ∨
      ((walk (processDirFunc ec env eng) env.join path node w).ret = .returned (some .skipDir) ∧
        ∃ name readErr children, node = .dir name readErr children)
  | .file name, path, w => by
    simp only [walk]
    rcases processDirFunc_ret ec env eng path (some ⟨name, false⟩) none w with h | h | ⟨-, n, h⟩
    · exact Or.inl h
    · exact Or.inr (Or.inl h)
    · simp at h
  | .noinfo name err, path, w => by
    simp only [walk]
    rcases processDirFunc_ret ec env eng path none (some err) w with h | h | ⟨-, n, h⟩
    · exact Or.inl h
    · exact Or.inr (Or.inl h)
    · simp at h
  | .dir name readErr children, path, w => by
    cases hs : shouldProcessFileOrDir ec ⟨name, true⟩
    · rw [walk_dir_skipped ec env eng path name readErr children w hs]
      exact Or.inr (Or.inr ⟨rfl, _, _, _, rfl⟩)
    · simp only [walk]
      rw [processDirFunc_dir ec env eng path name readErr w hs]
      cases readErr with
      | some e => simp
      | none =>
        simp only [Res.after]
        rcases walkChildren_ret ec env eng children path w with h | h
        · exact Or.inl h
        · exact Or.inr (Or.inl h)
theorem walkChildren_ret (ec : executionContext) (env : Env) (eng : Engine) :
    ∀ (nodes : List Node) (path : String) (w : World),
      (walkChildren (processDirFunc ec env eng) env.join path nodes w).ret = .returned none ∨
      (walkChildren (processDirFunc ec env eng) env.join path nodes w).ret = .panicked
  | [], path, w => by simp [walkChildren]
  | child :: rest, path, w => by
    have hrest := walkChildren_ret ec env eng rest path
      (walk (processDirFunc ec env eng) env.join (env.join path child.name) child w).world
    rw [walkChildren]
    rcases walk_ret ec env eng child (env.join path child.name) w with
      h | h | ⟨h, name, readErr, children, rfl⟩
    · simp only [h, Res.after]
      exact hrest
    · simp only [h]
      exact Or.inr trivial
    · simp only [h]
      simp only [ne_eq, not_true_eq_false, decide_False, Bool.false_eq_true, if_false, Res.after]
      exact hrest
end

/-- C2 fails on the code. The callback of `processDir` never looks at the error
`filepath.Walk` hands it: `processDir` returns nil or panics and never returns a
non-nil error; a root whose `Lstat` fails makes it panic on the nil file info,
as does an entry whose `Lstat` fails inside a directory it walks; and a directory
whose names cannot be read is passed over with nil returned. -/
theorem processDir_drops_traversal_errors (ec : executionContext) (env : Env) (eng : Engine)
    (dirName : String) (w : World) :
    (∀ tree : Node,
      (processDir ec env eng dirName tree w).ret = .returned none ∨
      (processDir ec env eng dirName tree w).ret = .panicked) ∧
    (∀ name err, processDir ec env eng dirName (.noinfo name err) w = ⟨.panicked, w, []⟩) ∧
    (∀ name err rest,
      processDir ec env eng dirName (.dir "." none (.noinfo name err :: rest)) w =
        ⟨.panicked, w, []⟩) ∧
    (∀ err children,
      processDir ec env eng dirName (.dir "." (some err) children) w =
        ⟨.returned none, w, []⟩) := by
  have hdot : shouldProcessFileOrDir ec ⟨".", true⟩ = true := by
    simp [shouldProcessFileOrDir]
  refine ⟨?_, ?_, ?_, ?_⟩
  · intro tree
    unfold processDir Walk
    rcases walk_ret ec env eng tree dirName w with h | h | ⟨h, -⟩
    · simp only [h]
      exact Or.inl trivial
    · simp only [h]
      exact Or.inr trivial
    · simp only [h]
      exact Or.inl trivial
  · intro name err
    simp [processDir, Walk, walk, processDirFunc]
  · intro name err rest
    unfold processDir Walk
    rw [walk_dir_entered ec env eng dirName "." _ w hdot]
    simp [walkChildren, walk, processDirFunc]
  · intro err children
    unfold processDir Walk
    simp only [walk]
    rw [processDirFunc_dir ec env eng dirName "." (some err) w hdot]

/-! ## Standard input -/

/-- C10 fails on the code. `processStdin` parses and renders without the call to
`SortImportsInPlace` that `processFile` makes: on an engine whose normalisation
sorts, the input `2 1` goes to standard output unchanged through `processStdin`
and sorted through `processFile`; in general `processStdin` writes what rendering
the parsed, unsorted file writes. On input that does not parse it returns the
error wrapped in `cannot read file` and writes nothing. -/
theorem processStdin_skips_sorting :
    (processStdin sortingEngine [2, 1] ⟨[("a.go", [2, 1])], []⟩).world.stdout = [2, 1] ∧
    (processFile ⟨false, false, none⟩ reliableEnv sortingEngine "a.go"
      ⟨[("a.go", [2, 1])], []⟩).world.stdout = [1, 2] ∧
    (∀ (eng : Engine) (stdin : Bytes) (w : World) (gf : eng.GoFile),
      eng.newGoFile stdin = .ok gf →
      (processStdin eng stdin w).world.stdout = w.stdout ++ (eng.format gf).1) ∧
    (∀ (eng : Engine) (stdin : Bytes) (w : World) (e : Err),
      eng.newGoFile stdin = .error e →
      processStdin eng stdin w = ⟨some (.wrap e "cannot read file"), w, []⟩) := by
  refine ⟨by decide, by decide, ?_, ?_⟩
  · intro eng stdin w gf hp
    unfold processStdin
    simp only [hp]
    rcases hf : eng.format gf with ⟨written, _ | e⟩ <;> simp
  · intro eng stdin w e hp
    simp [processStdin, hp]

end FormatGoImports
